import Mathlib

/-
Verification of the StatusPoller component of the openstacksdk repository.

The repository source under verification contains the proxy-layer entry
points (block_storage v3 Proxy.wait_for_status / wait_for_delete, compute v2
Proxy.wait_for_server / wait_for_delete, and the cloud-layer create_volume
caller).  The generic polling loops they delegate to (openstack.resource
wait_for_status and wait_for_delete) are not among the provided source
files, so those loops are modelled from the specification text; the proxy
wrappers are translated from the source directly.

Modelling conventions: the injected fetch capability is a finite script of
fetch outcomes (found resource / not-found / other error); wall-clock time
is discrete, advancing by the polling interval after each fetch; a poll
call returns the decided outcome together with the number of fetches it
consumed, and returns no outcome (none) when the script is exhausted while
the loop would still be polling.
-/

namespace OpenStackSDK

/-- Remote resource snapshot as seen by the poller: an identifier and an
optional status field (none models a resource type that structurally lacks
a status attribute). -/
structure Resource where
  id : String
  status : Option String
  deriving Repr, DecidableEq

/-- Outcome of one invocation of the injected fetch capability. -/
inductive FetchResult where
  | found (r : Resource)
  | notFound
  | err (e : String)
  deriving Repr, DecidableEq

/-- Terminal outcome of a polling call. -/
inductive WaitOutcome where
  | success (r : Resource)
  | failure (r : Resource) (s : String)
  | timeoutErr (r : Resource) (s : Option String)
  | misuse
  | notFoundErr
  | propagatedErr (e : String)
  deriving Repr, DecidableEq

/-- Lower-casing of a status string, the normalisation used by the
case-insensitive comparisons of the poller. -/
def lower (s : String) : String :=
  ⟨s.data.map Char.toLower⟩

/-- Case-insensitive status comparison. -/
def statusEq (a b : String) : Bool :=
  lower a == lower b

/-- Case-insensitive membership of a status in the failure list. -/
def isFailure (s : String) (failures : List String) : Bool :=
  failures.any (fun f => statusEq s f)

/-- Elapsed wall-clock time strictly exceeds a finite timeout; an absent
timeout never expires. -/
def timedOut (timeout : Option Nat) (elapsed : Nat) : Bool :=
  match timeout with
  | none => false
  | some t => t < elapsed

/-- A fetch outcome that keeps the status-wait loop polling: a resource
whose status is present and matches neither the target nor a failure
status. -/
def nonTerminalB (target : String) (failures : List String) : FetchResult → Bool
  | FetchResult.found r =>
    match r.status with
    | some s => !statusEq s target && !isFailure s failures
    | none => false
  | _ => false

/-- A fetch outcome that returned an existing resource. -/
def FetchResult.isFound : FetchResult → Bool
  | FetchResult.found _ => true
  | _ => false

/-- Last known resource snapshot after observing a fetch sequence from an
initial snapshot: each found result replaces the snapshot. -/
def lastKnown (res : Resource) : List FetchResult → Resource
  | [] => res
  | FetchResult.found r :: rest => lastKnown r rest
  | _ :: rest => lastKnown res rest

/-- Modelled from the spec: the main loop of openstack.resource
wait_for_status (resource.py is not among the provided sources).  Each
iteration first checks the timeout budget, then consumes one fetch: an
error propagates, not-found propagates as a not-found error, a fetched
resource lacking a status attribute is a misuse, a status matching the
target (case-insensitive) is success, a status matching a failure entry
raises failure, and otherwise the loop sleeps one interval and repeats.
Returns the outcome (none when the fetch script is exhausted while still
polling) and the number of fetches consumed. -/
def wait_for_status_loop (target : String) (failures : List String)
    (interval : Nat) (timeout : Option Nat) :
    List FetchResult → Nat → Resource → Option WaitOutcome × Nat
  | [], elapsed, last =>
    if timedOut timeout elapsed then
      (some (WaitOutcome.timeoutErr last last.status), 0)
    else
      (none, 0)
  | f :: rest, elapsed, last =>
    if timedOut timeout elapsed then
      (some (WaitOutcome.timeoutErr last last.status), 0)
    else
      match f with
      | FetchResult.err e => (some (WaitOutcome.propagatedErr e), 1)
      | FetchResult.notFound => (some WaitOutcome.notFoundErr, 1)
      | FetchResult.found r =>
        match r.status with
        | none => (some WaitOutcome.misuse, 1)
        | some s =>
          if statusEq s target then (some (WaitOutcome.success r), 1)
          else if isFailure s failures then (some (WaitOutcome.failure r s), 1)
          else
            let p := wait_for_status_loop target failures interval timeout
              rest (elapsed + interval) r
            (p.1, p.2 + 1)

/-- Modelled from the spec: openstack.resource wait_for_status (resource.py
is not among the provided sources).  A resource type lacking a status
attribute is a misuse detected before the loop; an initial status already
matching the target (case-insensitive) returns immediately without any
fetch; otherwise the polling loop runs from elapsed time zero. -/
def wait_for_status (target : String) (failures : List String)
    (interval : Nat) (timeout : Option Nat) (res : Resource)
    (script : List FetchResult) : Option WaitOutcome × Nat :=
  match res.status with
  | none => (some WaitOutcome.misuse, 0)
  | some s =>
    if statusEq s target then (some (WaitOutcome.success res), 0)
    else wait_for_status_loop target failures interval timeout script 0 res

/-- Modelled from the spec: the main loop of openstack.resource
wait_for_delete (resource.py is not among the provided sources).  Each
iteration first checks the timeout budget, then consumes one fetch: an
error propagates, not-found returns the last known snapshot as success,
and an existing resource, regardless of its status, keeps the loop
polling. -/
def wait_for_delete_loop (interval : Nat) (timeout : Option Nat) :
    List FetchResult → Nat → Resource → Option WaitOutcome × Nat
  | [], elapsed, last =>
    if timedOut timeout elapsed then
      (some (WaitOutcome.timeoutErr last last.status), 0)
    else
      (none, 0)
  | f :: rest, elapsed, last =>
    if timedOut timeout elapsed then
      (some (WaitOutcome.timeoutErr last last.status), 0)
    else
      match f with
      | FetchResult.err e => (some (WaitOutcome.propagatedErr e), 1)
      | FetchResult.notFound => (some (WaitOutcome.success last), 1)
      | FetchResult.found r =>
        let p := wait_for_delete_loop interval timeout rest (elapsed + interval) r
        (p.1, p.2 + 1)

/-- Modelled from the spec: openstack.resource wait_for_delete (resource.py
is not among the provided sources).  The polling loop runs from elapsed
time zero with the given resource as the last known snapshot. -/
def wait_for_delete (interval : Nat) (timeout : Option Nat) (res : Resource)
    (script : List FetchResult) : Option WaitOutcome × Nat :=
  wait_for_delete_loop interval timeout script 0 res

/-- Block-storage v3 Proxy.wait_for_status from the source: substitutes the
default failure list ["error"] when failures is None, then delegates to the
generic wait.  Source defaults: status "available", interval 2, wait 120. -/
def BlockStorageProxy.wait_for_status (res : Resource) (status : String)
    (failures : Option (List String)) (interval : Nat) (wait : Option Nat)
    (script : List FetchResult) : Option WaitOutcome × Nat :=
  OpenStackSDK.wait_for_status status (failures.getD ["error"]) interval wait
    res script

/-- Block-storage v3 Proxy.wait_for_delete from the source: delegates to
the generic delete wait.  Source defaults: interval 2, wait 120. -/
def BlockStorageProxy.wait_for_delete (res : Resource) (interval : Nat)
    (wait : Option Nat) (script : List FetchResult) :
    Option WaitOutcome × Nat :=
  OpenStackSDK.wait_for_delete interval wait res script

/-- Compute v2 Proxy.wait_for_server from the source: substitutes the
default failure list ["ERROR"] when failures is None, then delegates to the
generic wait.  Source defaults: status "ACTIVE", interval 2, wait 120. -/
def ComputeProxy.wait_for_server (server : Resource) (status : String)
    (failures : Option (List String)) (interval : Nat) (wait : Option Nat)
    (script : List FetchResult) : Option WaitOutcome × Nat :=
  OpenStackSDK.wait_for_status status (failures.getD ["ERROR"]) interval wait
    server script

/-- Compute v2 Proxy.wait_for_delete from the source: delegates to the
generic delete wait.  Source defaults: interval 2, wait 120. -/
def ComputeProxy.wait_for_delete (res : Resource) (interval : Nat)
    (wait : Option Nat) (script : List FetchResult) :
    Option WaitOutcome × Nat :=
  OpenStackSDK.wait_for_delete interval wait res script

/-- With an absent timeout the status loop never consults the elapsed
time, so its result is independent of it. -/
lemma wfs_loop_none_elapsed_irrel (target : String) (failures : List String)
    (interval : Nat) :
    ∀ (script : List FetchResult) (e1 e2 : Nat) (last : Resource),
    wait_for_status_loop target failures interval none script e1 last
      = wait_for_status_loop target failures interval none script e2 last := by
  intro script
  induction script with
  | nil => intro e1 e2 last; simp [wait_for_status_loop, timedOut]
  | cons f rest ih =>
    intro e1 e2 last
    cases f with
    | err e => simp [wait_for_status_loop, timedOut]
    | notFound => simp [wait_for_status_loop, timedOut]
    | found r =>
      cases hs : r.status with
      | none => simp [wait_for_status_loop, timedOut, hs]
      | some s =>
        by_cases h1 : statusEq s target
        · simp [wait_for_status_loop, timedOut, hs, h1]
        · by_cases h2 : isFailure s failures
          · simp [wait_for_status_loop, timedOut, hs, h1, h2]
          · simp only [wait_for_status_loop, timedOut, hs, h1, h2,
              Bool.false_eq_true, if_false]
            rw [ih (e1 + interval) (e2 + interval) r]

/-- With an absent timeout the delete loop never consults the elapsed
time, so its result is independent of it. -/
lemma wfd_loop_none_elapsed_irrel (interval : Nat) :
    ∀ (script : List FetchResult) (e1 e2 : Nat) (last : Resource),
    wait_for_delete_loop interval none script e1 last
      = wait_for_delete_loop interval none script e2 last := by
  intro script
  induction script with
  | nil => intro e1 e2 last; simp [wait_for_delete_loop, timedOut]
  | cons f rest ih =>
    intro e1 e2 last
    cases f with
    | err e => simp [wait_for_delete_loop, timedOut]
    | notFound => simp [wait_for_delete_loop, timedOut]
    | found r =>
      simp only [wait_for_delete_loop, timedOut, if_false]
      rw [ih (e1 + interval) (e2 + interval) r]

/-- Skipping a run of non-terminal fetches: with an absent timeout the
status loop passes over every non-terminal fetch, adding one consumed
fetch per entry and updating the last known snapshot. -/
lemma wfs_loop_none_append (target : String) (failures : List String)
    (interval : Nat) :
    ∀ (pre : List FetchResult),
    (∀ f ∈ pre, nonTerminalB target failures f = true) →
    ∀ (script : List FetchResult) (elapsed : Nat) (last : Resource),
    wait_for_status_loop target failures interval none (pre ++ script)
        elapsed last
      = ((wait_for_status_loop target failures interval none script elapsed
            (lastKnown last pre)).1,
         (wait_for_status_loop target failures interval none script elapsed
            (lastKnown last pre)).2 + pre.length) := by
  intro pre
  induction pre with
  | nil => intro _ script elapsed last; simp [lastKnown]
  | cons f pre ih =>
    intro h script elapsed last
    have hf : nonTerminalB target failures f = true := h f (List.mem_cons_self f pre)
    have hpre : ∀ g ∈ pre, nonTerminalB target failures g = true :=
      fun g hg => h g (List.mem_cons_of_mem f hg)
    cases f with
    | err e => simp [nonTerminalB] at hf
    | notFound => simp [nonTerminalB] at hf
    | found r =>
      cases hs : r.status with
      | none => simp [nonTerminalB, hs] at hf
      | some s =>
        simp only [nonTerminalB, hs, Bool.and_eq_true, Bool.not_eq_true'] at hf
        obtain ⟨h1, h2⟩ := hf
        simp only [List.cons_append, List.append_eq, wait_for_status_loop,
          timedOut, hs, h1, h2, Bool.false_eq_true, if_false, lastKnown]
        rw [ih hpre script (elapsed + interval) r]
        rw [wfs_loop_none_elapsed_irrel target failures interval script
          (elapsed + interval) elapsed (lastKnown r pre)]
        simp [List.length_cons]
        omega

/-- Skipping a run of still-existing fetches: with an absent timeout the
delete loop passes over every found fetch, adding one consumed fetch per
entry and updating the last known snapshot. -/
lemma wfd_loop_none_append (interval : Nat) :
    ∀ (pre : List FetchResult),
    (∀ f ∈ pre, f.isFound = true) →
    ∀ (script : List FetchResult) (elapsed : Nat) (last : Resource),
    wait_for_delete_loop interval none (pre ++ script) elapsed last
      = ((wait_for_delete_loop interval none script elapsed
            (lastKnown last pre)).1,
         (wait_for_delete_loop interval none script elapsed
            (lastKnown last pre)).2 + pre.length) := by
  intro pre
  induction pre with
  | nil => intro _ script elapsed last; simp [lastKnown]
  | cons f pre ih =>
    intro h script elapsed last
    have hf : f.isFound = true := h f (List.mem_cons_self f pre)
    have hpre : ∀ g ∈ pre, g.isFound = true :=
      fun g hg => h g (List.mem_cons_of_mem f hg)
    cases f with
    | err e => simp [FetchResult.isFound] at hf
    | notFound => simp [FetchResult.isFound] at hf
    | found r =>
      simp only [List.cons_append, List.append_eq, wait_for_delete_loop,
        timedOut, Bool.false_eq_true, if_false, lastKnown]
      rw [ih hpre script (elapsed + interval) r]
      rw [wfd_loop_none_elapsed_irrel interval script (elapsed + interval)
        elapsed (lastKnown r pre)]
      simp [List.length_cons]
      omega

/-- Against a script of non-terminal fetches a finite timeout budget always
expires: the loop ends in a timeout outcome carrying the last observed
snapshot and its status, and the consumed fetch count k satisfies
elapsed + k * interval <= t + interval. -/
lemma wfs_loop_timeout (target : String) (failures : List String)
    (interval t : Nat) :
    ∀ (script : List FetchResult) (elapsed : Nat) (last : Resource),
    (∀ f ∈ script, nonTerminalB target failures f = true) →
    t < elapsed + script.length * interval →
    elapsed ≤ t + interval →
    ∃ k, wait_for_status_loop target failures interval (some t) script
        elapsed last
        = (some (WaitOutcome.timeoutErr (lastKnown last (script.take k))
            (lastKnown last (script.take k)).status), k)
      ∧ elapsed + k * interval ≤ t + interval := by
  intro script
  induction script with
  | nil =>
    intro elapsed last _ hlen hub
    simp only [List.length_nil, Nat.zero_mul, Nat.add_zero] at hlen
    have ht : timedOut (some t) elapsed = true := by
      simp only [timedOut, decide_eq_true_eq]; omega
    refine ⟨0, ?_, by omega⟩
    simp [wait_for_status_loop, ht, lastKnown]
  | cons f rest ih =>
    intro elapsed last hnt hlen hub
    by_cases he : t < elapsed
    · have ht : timedOut (some t) elapsed = true := by
        simp only [timedOut, decide_eq_true_eq]; omega
      refine ⟨0, ?_, by omega⟩
      simp [wait_for_status_loop, ht, lastKnown]
    · push_neg at he
      have ht : timedOut (some t) elapsed = false := by
        simp only [timedOut, decide_eq_false_iff_not]; omega
      have hf : nonTerminalB target failures f = true :=
        hnt f (List.mem_cons_self f rest)
      have hrest : ∀ g ∈ rest, nonTerminalB target failures g = true :=
        fun g hg => hnt g (List.mem_cons_of_mem f hg)
      cases f with
      | err e => simp [nonTerminalB] at hf
      | notFound => simp [nonTerminalB] at hf
      | found r =>
        cases hs : r.status with
        | none => simp [nonTerminalB, hs] at hf
        | some s =>
          simp only [nonTerminalB, hs, Bool.and_eq_true, Bool.not_eq_true'] at hf
          obtain ⟨h1, h2⟩ := hf
          have hlen2 : t < (elapsed + interval) + rest.length * interval := by
            simp only [List.length_cons, Nat.succ_mul] at hlen
            linarith
          have hub2 : elapsed + interval ≤ t + interval := by omega
          obtain ⟨k, hek, hbound⟩ := ih (elapsed + interval) r hrest hlen2 hub2
          refine ⟨k + 1, ?_, ?_⟩
          · simp only [wait_for_status_loop, ht, hs, h1, h2, Bool.false_eq_true,
              if_false]
            rw [hek]
            simp [List.take_succ_cons, lastKnown]
          · have : (k + 1) * interval = k * interval + interval := Nat.succ_mul k interval
            rw [this]
            linarith

/-- With an absent timeout the status loop can never produce a timeout
outcome. -/
lemma wfs_loop_none_no_timeout (target : String) (failures : List String)
    (interval : Nat) :
    ∀ (script : List FetchResult) (elapsed : Nat) (last r : Resource)
      (s : Option String),
    (wait_for_status_loop target failures interval none script elapsed last).1
      ≠ some (WaitOutcome.timeoutErr r s) := by
  intro script
  induction script with
  | nil => intro elapsed last r s; simp [wait_for_status_loop, timedOut]
  | cons f rest ih =>
    intro elapsed last r s
    cases f with
    | err e => simp [wait_for_status_loop, timedOut]
    | notFound => simp [wait_for_status_loop, timedOut]
    | found rr =>
      cases hs : rr.status with
      | none => simp [wait_for_status_loop, timedOut, hs]
      | some ss =>
        by_cases h1 : statusEq ss target
        · simp [wait_for_status_loop, timedOut, hs, h1]
        · by_cases h2 : isFailure ss failures
          · simp [wait_for_status_loop, timedOut, hs, h1, h2]
          · simp only [wait_for_status_loop, timedOut, hs, h1, h2,
              Bool.false_eq_true, if_false]
            exact ih (elapsed + interval) rr r s

/-- Case-insensitive membership in the failure list depends only on the
lower-cased entries. -/
lemma isFailure_congr (s : String) :
    ∀ (fs1 fs2 : List String), fs1.map lower = fs2.map lower →
    isFailure s fs1 = isFailure s fs2 := by
  intro fs1
  induction fs1 with
  | nil =>
    intro fs2 h
    have : fs2 = [] := by
      cases fs2 with
      | nil => rfl
      | cons b bs => simp at h
    subst this
    rfl
  | cons a as ih =>
    intro fs2 h
    cases fs2 with
    | nil => simp at h
    | cons b bs =>
      simp only [List.map_cons, List.cons.injEq] at h
      obtain ⟨hab, hrest⟩ := h
      simp only [isFailure, List.any_cons]
      have h1 : statusEq s a = statusEq s b := by
        simp [statusEq, hab]
      have h2 : isFailure s as = isFailure s bs := ih bs hrest
      simp only [isFailure] at h2
      rw [h1, h2]

/-- The status loop is invariant under replacing the target and the failure
entries by case variants. -/
lemma wfs_loop_congr (t1 t2 : String) (fs1 fs2 : List String)
    (ht : lower t1 = lower t2) (hf : fs1.map lower = fs2.map lower)
    (interval : Nat) (timeout : Option Nat) :
    ∀ (script : List FetchResult) (elapsed : Nat) (last : Resource),
    wait_for_status_loop t1 fs1 interval timeout script elapsed last
      = wait_for_status_loop t2 fs2 interval timeout script elapsed last := by
  intro script
  induction script with
  | nil => intro elapsed last; rfl
  | cons f rest ih =>
    intro elapsed last
    cases f with
    | err e => rfl
    | notFound => rfl
    | found r =>
      cases hs : r.status with
      | none => simp [wait_for_status_loop, hs]
      | some s =>
        have he : statusEq s t1 = statusEq s t2 := by simp [statusEq, ht]
        have hif : isFailure s fs1 = isFailure s fs2 := isFailure_congr s fs1 fs2 hf
        by_cases h1 : statusEq s t2
        · simp [wait_for_status_loop, hs, he, h1]
        · by_cases h2 : isFailure s fs2
          · simp [wait_for_status_loop, hs, he, hif, h1, h2]
          · simp only [wait_for_status_loop, hs, he, hif, h1, h2,
              Bool.false_eq_true, if_false]
            rw [ih (elapsed + interval) r]

/-- The full status wait is invariant under replacing the target and the
failure entries by case variants. -/
lemma wait_for_status_congr (t1 t2 : String) (fs1 fs2 : List String)
    (ht : lower t1 = lower t2) (hf : fs1.map lower = fs2.map lower)
    (interval : Nat) (timeout : Option Nat) (res : Resource)
    (script : List FetchResult) :
    wait_for_status t1 fs1 interval timeout res script
      = wait_for_status t2 fs2 interval timeout res script := by
  unfold wait_for_status
  cases hs : res.status with
  | none => rfl
  | some s =>
    have he : statusEq s t1 = statusEq s t2 := by simp [statusEq, ht]
    by_cases h1 : statusEq s t2
    · simp [he, h1]
    · simp only [he, h1, Bool.false_eq_true, if_false]
      exact wfs_loop_congr t1 t2 fs1 fs2 ht hf interval timeout script 0 res

/-- A successful delete wait decomposes the script: a run of found fetches,
then the not-found fetch that decided it; the returned snapshot is the
last known one and the count stops right after the not-found fetch. -/
lemma wfd_loop_success_decomp (interval : Nat) (timeout : Option Nat) :
    ∀ (script : List FetchResult) (elapsed : Nat) (last r : Resource) (k : Nat),
    wait_for_delete_loop interval timeout script elapsed last
      = (some (WaitOutcome.success r), k) →
    ∃ pre rest, script = pre ++ FetchResult.notFound :: rest
      ∧ (∀ f ∈ pre, f.isFound = true)
      ∧ k = pre.length + 1
      ∧ r = lastKnown last pre := by
  intro script
  induction script with
  | nil =>
    intro elapsed last r k h
    by_cases ht : timedOut timeout elapsed
    · simp [wait_for_delete_loop, ht] at h
    · simp [wait_for_delete_loop, ht] at h
  | cons f rest ih =>
    intro elapsed last r k h
    by_cases ht : timedOut timeout elapsed
    · simp [wait_for_delete_loop, ht] at h
    · cases f with
      | err e => simp [wait_for_delete_loop, ht] at h
      | notFound =>
        simp only [wait_for_delete_loop, ht, Bool.false_eq_true, if_false,
          Prod.mk.injEq, Option.some.injEq, WaitOutcome.success.injEq] at h
        obtain ⟨hlr, hk⟩ := h
        exact ⟨[], rest, rfl, by simp, by simpa using hk.symm,
          by simp [lastKnown, hlr]⟩
      | found rr =>
        simp only [wait_for_delete_loop, ht, Bool.false_eq_true, if_false,
          Prod.mk.injEq] at h
        obtain ⟨h1, h2⟩ := h
        have hp : wait_for_delete_loop interval timeout rest (elapsed + interval) rr
            = (some (WaitOutcome.success r),
               (wait_for_delete_loop interval timeout rest (elapsed + interval) rr).2) := by
          exact Prod.ext h1 rfl
        obtain ⟨pre', rest', hdec, hfound, hk, hlast⟩ :=
          ih (elapsed + interval) rr r _ hp
        refine ⟨FetchResult.found rr :: pre', rest',
          by rw [hdec]; rfl, ?_, ?_, ?_⟩
        · intro g hg
          cases List.mem_cons.mp hg with
          | inl hh => rw [hh]; rfl
          | inr hh => exact hfound g hh
        · simp only [List.length_cons]; omega
        · simpa [lastKnown] using hlast

/-- Every resource carried by a status-wait loop outcome was observed: it
is the last known snapshot passed in or a resource returned by a fetch of
the script; the loop fabricates and mutates nothing. -/
lemma wfs_loop_observed (target : String) (failures : List String)
    (interval : Nat) (timeout : Option Nat) :
    ∀ (script : List FetchResult) (elapsed : Nat) (last r : Resource),
    ((wait_for_status_loop target failures interval timeout script
        elapsed last).1 = some (WaitOutcome.success r) →
          FetchResult.found r ∈ script)
    ∧ (∀ s, (wait_for_status_loop target failures interval timeout script
        elapsed last).1 = some (WaitOutcome.failure r s) →
          FetchResult.found r ∈ script)
    ∧ (∀ s, (wait_for_status_loop target failures interval timeout script
        elapsed last).1 = some (WaitOutcome.timeoutErr r s) →
          r = last ∨ FetchResult.found r ∈ script) := by
  intro script
  induction script with
  | nil =>
    intro elapsed last r
    by_cases ht : timedOut timeout elapsed
    · refine ⟨?_, ?_, ?_⟩ <;> intros <;>
        simp_all [wait_for_status_loop, ht]
    · refine ⟨?_, ?_, ?_⟩ <;> intros <;>
        simp_all [wait_for_status_loop, ht]
  | cons f rest ih =>
    intro elapsed last r
    by_cases ht : timedOut timeout elapsed
    · refine ⟨?_, ?_, ?_⟩ <;> intros <;>
        simp_all [wait_for_status_loop, ht]
    · cases f with
      | err e =>
        refine ⟨?_, ?_, ?_⟩ <;> intros <;>
          simp_all [wait_for_status_loop, ht]
      | notFound =>
        refine ⟨?_, ?_, ?_⟩ <;> intros <;>
          simp_all [wait_for_status_loop, ht]
      | found rr =>
        cases hs : rr.status with
        | none =>
          refine ⟨?_, ?_, ?_⟩ <;> intros <;>
            simp_all [wait_for_status_loop, ht, hs]
        | some ss =>
          by_cases h1 : statusEq ss target
          · refine ⟨?_, ?_, ?_⟩
            · intro h
              simp only [wait_for_status_loop, ht, hs, h1, Bool.false_eq_true,
                if_false, if_true, Option.some.injEq,
                WaitOutcome.success.injEq] at h
              rw [← h]
              exact List.mem_cons_self _ _
            · intro s h
              simp [wait_for_status_loop, ht, hs, h1] at h
            · intro s h
              simp [wait_for_status_loop, ht, hs, h1] at h
          · by_cases h2 : isFailure ss failures
            · refine ⟨?_, ?_, ?_⟩
              · intro h
                simp [wait_for_status_loop, ht, hs, h1, h2] at h
              · intro s h
                simp only [wait_for_status_loop, ht, hs, h1, h2,
                  Bool.false_eq_true, if_false, if_true, Option.some.injEq,
                  WaitOutcome.failure.injEq] at h
                rw [← h.1]
                exact List.mem_cons_self _ _
              · intro s h
                simp [wait_for_status_loop, ht, hs, h1, h2] at h
            · have hred : (wait_for_status_loop target failures interval timeout
                  (FetchResult.found rr :: rest) elapsed last).1
                  = (wait_for_status_loop target failures interval timeout rest
                      (elapsed + interval) rr).1 := by
                simp [wait_for_status_loop, ht, hs, h1, h2]
              obtain ⟨ha, hb, hc⟩ := ih (elapsed + interval) rr r
              refine ⟨?_, ?_, ?_⟩
              · intro h
                rw [hred] at h
                exact List.mem_cons_of_mem _ (ha h)
              · intro s h
                rw [hred] at h
                exact List.mem_cons_of_mem _ (hb s h)
              · intro s h
                rw [hred] at h
                cases hc s h with
                | inl hh => exact Or.inr (hh ▸ List.mem_cons_self _ _)
                | inr hh => exact Or.inr (List.mem_cons_of_mem _ hh)

/-- Every resource carried by a delete-wait loop outcome was observed: it
is the last known snapshot passed in or a resource returned by a fetch of
the script; the loop fabricates and mutates nothing. -/
lemma wfd_loop_observed (interval : Nat) (timeout : Option Nat) :
    ∀ (script : List FetchResult) (elapsed : Nat) (last r : Resource),
    ((wait_for_delete_loop interval timeout script elapsed last).1
        = some (WaitOutcome.success r) →
          r = last ∨ FetchResult.found r ∈ script)
    ∧ (∀ s, (wait_for_delete_loop interval timeout script elapsed last).1
        = some (WaitOutcome.timeoutErr r s) →
          r = last ∨ FetchResult.found r ∈ script) := by
  intro script
  induction script with
  | nil =>
    intro elapsed last r
    by_cases ht : timedOut timeout elapsed
    · refine ⟨?_, ?_⟩ <;> intros <;> simp_all [wait_for_delete_loop, ht]
    · refine ⟨?_, ?_⟩ <;> intros <;> simp_all [wait_for_delete_loop, ht]
  | cons f rest ih =>
    intro elapsed last r
    by_cases ht : timedOut timeout elapsed
    · refine ⟨?_, ?_⟩ <;> intros <;> simp_all [wait_for_delete_loop, ht]
    · cases f with
      | err e =>
        refine ⟨?_, ?_⟩ <;> intros <;> simp_all [wait_for_delete_loop, ht]
      | notFound =>
        refine ⟨?_, ?_⟩
        · intro h
          simp only [wait_for_delete_loop, ht, Bool.false_eq_true, if_false,
            Option.some.injEq, WaitOutcome.success.injEq] at h
          exact Or.inl h.symm
        · intro s h
          simp [wait_for_delete_loop, ht] at h
      | found rr =>
        have hred : (wait_for_delete_loop interval timeout
            (FetchResult.found rr :: rest) elapsed last).1
            = (wait_for_delete_loop interval timeout rest
                (elapsed + interval) rr).1 := by
          simp [wait_for_delete_loop, ht]
        obtain ⟨ha, hb⟩ := ih (elapsed + interval) rr r
        refine ⟨?_, ?_⟩
        · intro h
          rw [hred] at h
          cases ha h with
          | inl hh => exact Or.inr (hh ▸ List.mem_cons_self _ _)
          | inr hh => exact Or.inr (List.mem_cons_of_mem _ hh)
        · intro s h
          rw [hred] at h
          cases hb s h with
          | inl hh => exact Or.inr (hh ▸ List.mem_cons_self _ _)
          | inr hh => exact Or.inr (List.mem_cons_of_mem _ hh)

/-- An already expired budget makes the status loop time out at once,
consuming no fetch. -/
lemma wfs_loop_timedOut (target : String) (failures : List String)
    (interval : Nat) (timeout : Option Nat) (script : List FetchResult)
    (elapsed : Nat) (last : Resource) (h : timedOut timeout elapsed = true) :
    wait_for_status_loop target failures interval timeout script elapsed last
      = (some (WaitOutcome.timeoutErr last last.status), 0) := by
  cases script <;> simp [wait_for_status_loop, h]

/-- On entering the polling loop the status wait reduces to the loop from
elapsed time zero, provided the fast path does not apply. -/
lemma wait_for_status_enters_loop (target : String) (failures : List String)
    (interval : Nat) (timeout : Option Nat) (res : Resource)
    (script : List FetchResult) (s0 : String)
    (h0 : res.status = some s0) (hfast : statusEq s0 target = false) :
    wait_for_status target failures interval timeout res script
      = wait_for_status_loop target failures interval timeout script 0 res := by
  unfold wait_for_status
  rw [h0]
  simp [hfast]

/-- Claim C1: a resource whose initial status already equals the target
status under case-insensitive comparison is returned immediately as a
success, and the fetch capability is consulted zero times. -/
theorem C1_fast_path_no_fetch (target : String) (failures : List String)
    (interval : Nat) (timeout : Option Nat) (res : Resource)
    (script : List FetchResult) (s : String)
    (hs : res.status = some s) (heq : statusEq s target = true) :
    wait_for_status target failures interval timeout res script
      = (some (WaitOutcome.success res), 0) := by
  unfold wait_for_status
  rw [hs]
  simp [heq]

/-- Witness for C1: an initial status AVAILABLE against target available
returns at once with zero fetches, even with a pending fetch script. -/
theorem C1_fast_path_no_fetch_witness :
    wait_for_status "available" ["error"] 2 (some 120)
        (Resource.mk "vol-1" (some "AVAILABLE"))
        [FetchResult.found (Resource.mk "vol-1" (some "creating"))]
      = (some (WaitOutcome.success (Resource.mk "vol-1" (some "AVAILABLE"))), 0) :=
  C1_fast_path_no_fetch "available" ["error"] 2 (some 120)
    (Resource.mk "vol-1" (some "AVAILABLE"))
    [FetchResult.found (Resource.mk "vol-1" (some "creating"))]
    "AVAILABLE" rfl (by decide)

/-- Claim C2: with a finite timeout budget and fetches that only ever
return statuses that are neither the target nor a failure status, the
status wait terminates in a Timeout outcome carrying exactly the last
observed resource (the last snapshot of the k consumed fetches, the
initial handle when k = 0) and its status, after at most
timeout / interval + 1 fetches (stated as k * interval <= timeout +
interval). -/
theorem C2_finite_timeout_terminates (target : String) (failures : List String)
    (interval t : Nat) (res : Resource) (script : List FetchResult)
    (s0 : String)
    (h0 : res.status = some s0) (hfast : statusEq s0 target = false)
    (hnt : ∀ f ∈ script, nonTerminalB target failures f = true)
    (hlen : t < script.length * interval) :
    ∃ k, wait_for_status target failures interval (some t) res script
        = (some (WaitOutcome.timeoutErr (lastKnown res (script.take k))
            (lastKnown res (script.take k)).status), k)
      ∧ k * interval ≤ t + interval := by
  obtain ⟨k, hek, hb⟩ := wfs_loop_timeout target failures interval t script
    0 res hnt (by simpa using hlen) (Nat.zero_le _)
  refine ⟨k, ?_, by simpa using hb⟩
  rw [wait_for_status_enters_loop target failures interval (some t) res script
    s0 h0 hfast, hek]

/-- Witness for C2: interval 1, timeout 3 over four distinct non-terminal
snapshots end in a Timeout outcome carrying the last snapshot of the k
consumed fetches, with k <= 4. -/
theorem C2_finite_timeout_terminates_witness :
    ∃ k, wait_for_status "available" ["error"] 1 (some 3)
        (Resource.mk "vol-1" (some "creating"))
        [FetchResult.found (Resource.mk "vol-1" (some "queued")),
         FetchResult.found (Resource.mk "vol-1" (some "creating")),
         FetchResult.found (Resource.mk "vol-1" (some "downloading")),
         FetchResult.found (Resource.mk "vol-1" (some "attaching"))]
        = (some (WaitOutcome.timeoutErr
            (lastKnown (Resource.mk "vol-1" (some "creating"))
              ([FetchResult.found (Resource.mk "vol-1" (some "queued")),
                FetchResult.found (Resource.mk "vol-1" (some "creating")),
                FetchResult.found (Resource.mk "vol-1" (some "downloading")),
                FetchResult.found (Resource.mk "vol-1" (some "attaching"))].take k))
            (lastKnown (Resource.mk "vol-1" (some "creating"))
              ([FetchResult.found (Resource.mk "vol-1" (some "queued")),
                FetchResult.found (Resource.mk "vol-1" (some "creating")),
                FetchResult.found (Resource.mk "vol-1" (some "downloading")),
                FetchResult.found (Resource.mk "vol-1" (some "attaching"))].take k)).status),
            k)
      ∧ k * 1 ≤ 3 + 1 :=
  C2_finite_timeout_terminates "available" ["error"] 1 3
    (Resource.mk "vol-1" (some "creating"))
    [FetchResult.found (Resource.mk "vol-1" (some "queued")),
     FetchResult.found (Resource.mk "vol-1" (some "creating")),
     FetchResult.found (Resource.mk "vol-1" (some "downloading")),
     FetchResult.found (Resource.mk "vol-1" (some "attaching"))]
    "creating" rfl (by decide) (by decide) (by decide)

/-- Claim C3: when a fetched status matches a failure entry
(case-insensitively) after a run of non-terminal fetches and before any
target status, the status wait raises Failure carrying that resource and
status right after that fetch: the consumed fetch count is exactly the
run length plus one, so nothing after the failing fetch is fetched. -/
theorem C3_failure_short_circuit (target : String) (failures : List String)
    (interval : Nat) (res rf : Resource) (pre rest : List FetchResult)
    (s0 sf : String)
    (h0 : res.status = some s0) (hfast : statusEq s0 target = false)
    (hpre : ∀ f ∈ pre, nonTerminalB target failures f = true)
    (hsf : rf.status = some sf) (hsft : statusEq sf target = false)
    (hsff : isFailure sf failures = true) :
    wait_for_status target failures interval none res
        (pre ++ FetchResult.found rf :: rest)
      = (some (WaitOutcome.failure rf sf), pre.length + 1) := by
  rw [wait_for_status_enters_loop target failures interval none res
    (pre ++ FetchResult.found rf :: rest) s0 h0 hfast]
  rw [wfs_loop_none_append target failures interval pre hpre
    (FetchResult.found rf :: rest) 0 res]
  simp [wait_for_status_loop, timedOut, hsf, hsft, hsff]
  omega

/-- Witness for C3: target available, failures [error], fetched statuses
creating then error raise Failure after exactly 2 fetches. -/
theorem C3_failure_short_circuit_witness :
    wait_for_status "available" ["error"] 2 none
        (Resource.mk "vol-1" (some "creating"))
        [FetchResult.found (Resource.mk "vol-1" (some "creating")),
         FetchResult.found (Resource.mk "vol-1" (some "error"))]
      = (some (WaitOutcome.failure (Resource.mk "vol-1" (some "error"))
          "error"), 2) := by
  have h := C3_failure_short_circuit "available" ["error"] 2
    (Resource.mk "vol-1" (some "creating"))
    (Resource.mk "vol-1" (some "error"))
    [FetchResult.found (Resource.mk "vol-1" (some "creating"))] []
    "creating" "error" rfl (by decide) (by decide) rfl (by decide) (by decide)
  simpa using h

/-- Claim C4: the delete wait succeeds exactly when a fetch reports
not-found: a successful outcome decomposes the script into a run of
found fetches followed by the deciding not-found fetch, returning the
last snapshot known before it; conversely any such script succeeds that
way, so existing resources, whatever their status, never decide the
wait. -/
theorem C4_delete_success_iff (interval : Nat) (res : Resource) :
    (∀ (timeout : Option Nat) (script : List FetchResult) (r : Resource)
      (k : Nat),
      wait_for_delete interval timeout res script
        = (some (WaitOutcome.success r), k) →
      ∃ pre rest, script = pre ++ FetchResult.notFound :: rest
        ∧ (∀ f ∈ pre, f.isFound = true)
        ∧ k = pre.length + 1 ∧ r = lastKnown res pre)
    ∧ (∀ (pre rest : List FetchResult), (∀ f ∈ pre, f.isFound = true) →
      wait_for_delete interval none res (pre ++ FetchResult.notFound :: rest)
        = (some (WaitOutcome.success (lastKnown res pre)), pre.length + 1)) := by
  constructor
  · intro timeout script r k h
    exact wfd_loop_success_decomp interval timeout script 0 res r k h
  · intro pre rest hpre
    unfold wait_for_delete
    rw [wfd_loop_none_append interval pre hpre (FetchResult.notFound :: rest)
      0 res]
    simp [wait_for_delete_loop, timedOut]
    omega

/-- Witness for C4: two found fetches then not-found succeed after the
third fetch, returning the snapshot captured before the not-found. -/
theorem C4_delete_success_iff_witness :
    wait_for_delete 2 none (Resource.mk "vol-1" (some "creating"))
        [FetchResult.found (Resource.mk "vol-1" (some "deleting")),
         FetchResult.found (Resource.mk "vol-1" (some "deleting")),
         FetchResult.notFound]
      = (some (WaitOutcome.success (Resource.mk "vol-1" (some "deleting"))),
         3) := by
  have h := (C4_delete_success_iff 2 (Resource.mk "vol-1" (some "creating"))).2
    [FetchResult.found (Resource.mk "vol-1" (some "deleting")),
     FetchResult.found (Resource.mk "vol-1" (some "deleting"))] []
    (by decide)
  simpa [lastKnown] using h

/-- Claim C5: replacing the target status and the failure entries by case
variants (strings with equal lower-casings) leaves the outcome of the
status wait unchanged, on every resource and fetch script: case variants
of the target are all accepted as success and case variants of failure
entries are all treated as failure. -/
theorem C5_case_insensitive_equiv (t1 t2 : String) (fs1 fs2 : List String)
    (ht : lower t1 = lower t2) (hf : fs1.map lower = fs2.map lower)
    (interval : Nat) (timeout : Option Nat) (res : Resource)
    (script : List FetchResult) :
    wait_for_status t1 fs1 interval timeout res script
      = wait_for_status t2 fs2 interval timeout res script :=
  wait_for_status_congr t1 t2 fs1 fs2 ht hf interval timeout res script

/-- Witness for C5: targets Available and AVAILABLE with failure entries
Error and ERROR give identical outcomes on a concrete run. -/
theorem C5_case_insensitive_equiv_witness :
    wait_for_status "Available" ["Error"] 2 (some 120)
        (Resource.mk "vol-1" (some "creating"))
        [FetchResult.found (Resource.mk "vol-1" (some "available"))]
      = wait_for_status "AVAILABLE" ["ERROR"] 2 (some 120)
        (Resource.mk "vol-1" (some "creating"))
        [FetchResult.found (Resource.mk "vol-1" (some "available"))] :=
  C5_case_insensitive_equiv "Available" "AVAILABLE" ["Error"] ["ERROR"]
    (by decide) (by decide) 2 (some 120)
    (Resource.mk "vol-1" (some "creating"))
    [FetchResult.found (Resource.mk "vol-1" (some "available"))]

/-- Claim C6: an absent timeout makes the wait unbounded: it never
produces a Timeout outcome, and on a script of only non-terminal fetches
it consumes the entire script and is still undecided; a timeout of 0
performs exactly one fetch and then times out when that fetch did not
satisfy a terminal condition. -/
theorem C6_timeout_none_and_zero (target : String) (failures : List String)
    (interval : Nat) (res : Resource) :
    (∀ (script : List FetchResult) (r : Resource) (s : Option String),
      (wait_for_status target failures interval none res script).1
        ≠ some (WaitOutcome.timeoutErr r s))
    ∧ (∀ (s0 : String) (script : List FetchResult),
      res.status = some s0 → statusEq s0 target = false →
      (∀ f ∈ script, nonTerminalB target failures f = true) →
      wait_for_status target failures interval none res script
        = (none, script.length))
    ∧ (∀ (s0 s : String) (r : Resource) (rest : List FetchResult),
      1 ≤ interval →
      res.status = some s0 → statusEq s0 target = false →
      r.status = some s → statusEq s target = false →
      isFailure s failures = false →
      wait_for_status target failures interval (some 0) res
          (FetchResult.found r :: rest)
        = (some (WaitOutcome.timeoutErr r r.status), 1)) := by
  refine ⟨?_, ?_, ?_⟩
  · intro script r s
    unfold wait_for_status
    cases h0 : res.status with
    | none => simp
    | some s0 =>
      by_cases hfast : statusEq s0 target
      · simp [hfast]
      · simp only [hfast, Bool.false_eq_true, if_false]
        exact wfs_loop_none_no_timeout target failures interval script 0 res r s
  · intro s0 script h0 hfast hnt
    rw [wait_for_status_enters_loop target failures interval none res script
      s0 h0 hfast]
    rw [← List.append_nil script]
    rw [wfs_loop_none_append target failures interval script hnt [] 0 res]
    simp [wait_for_status_loop, timedOut]
  · intro s0 s r rest hi h0 hfast hs hst hsf
    rw [wait_for_status_enters_loop target failures interval (some 0) res
      (FetchResult.found r :: rest) s0 h0 hfast]
    have ht0 : timedOut (some 0) 0 = false := by simp [timedOut]
    have hti : timedOut (some 0) (0 + interval) = true := by
      simp only [timedOut, decide_eq_true_eq]
      omega
    simp only [wait_for_status_loop, ht0, hs, hst, hsf, Bool.false_eq_true,
      if_false]
    rw [wfs_loop_timedOut target failures interval (some 0) rest
      (0 + interval) r hti]
    simp [hs]

/-- Witness for C6: with no timeout a creating fetch leaves the wait
undecided rather than timed out, and with timeout 0 the same single
fetch times out immediately after being consumed. -/
theorem C6_timeout_none_and_zero_witness :
    ((wait_for_status "available" ["error"] 2 none
        (Resource.mk "vol-1" (some "creating"))
        [FetchResult.found (Resource.mk "vol-1" (some "creating"))]).1
      ≠ some (WaitOutcome.timeoutErr (Resource.mk "vol-1" (some "creating"))
          (some "creating")))
    ∧ wait_for_status "available" ["error"] 2 none
        (Resource.mk "vol-1" (some "creating"))
        [FetchResult.found (Resource.mk "vol-1" (some "creating"))]
      = (none, 1)
    ∧ wait_for_status "available" ["error"] 2 (some 0)
        (Resource.mk "vol-1" (some "creating"))
        [FetchResult.found (Resource.mk "vol-1" (some "creating"))]
      = (some (WaitOutcome.timeoutErr (Resource.mk "vol-1" (some "creating"))
          (some "creating")), 1) := by
  refine ⟨?_, ?_, ?_⟩
  · exact (C6_timeout_none_and_zero "available" ["error"] 2
      (Resource.mk "vol-1" (some "creating"))).1
      [FetchResult.found (Resource.mk "vol-1" (some "creating"))]
      (Resource.mk "vol-1" (some "creating")) (some "creating")
  · have h := (C6_timeout_none_and_zero "available" ["error"] 2
      (Resource.mk "vol-1" (some "creating"))).2.1 "creating"
      [FetchResult.found (Resource.mk "vol-1" (some "creating"))]
      rfl (by decide) (by decide)
    simpa using h
  · exact (C6_timeout_none_and_zero "available" ["error"] 2
      (Resource.mk "vol-1" (some "creating"))).2.2 "creating" "creating"
      (Resource.mk "vol-1" (some "creating")) [] (by decide) rfl (by decide)
      rfl (by decide) (by decide)

/-- Claim C7: a resource whose type lacks a status attribute makes the
status wait fail with the Misuse outcome before any fetch: zero fetches
are consumed, whatever the script. -/
theorem C7_misuse_before_fetch (target : String) (failures : List String)
    (interval : Nat) (timeout : Option Nat) (res : Resource)
    (script : List FetchResult) (h : res.status = none) :
    wait_for_status target failures interval timeout res script
      = (some WaitOutcome.misuse, 0) := by
  unfold wait_for_status
  rw [h]

/-- Witness for C7: a resource without a status attribute raises Misuse
with zero fetches consumed even though fetches were available. -/
theorem C7_misuse_before_fetch_witness :
    wait_for_status "available" ["error"] 2 (some 120)
        (Resource.mk "agg-1" none)
        [FetchResult.found (Resource.mk "agg-1" (some "available"))]
      = (some WaitOutcome.misuse, 0) :=
  C7_misuse_before_fetch "available" ["error"] 2 (some 120)
    (Resource.mk "agg-1" none)
    [FetchResult.found (Resource.mk "agg-1" (some "available"))] rfl

/-- Claim C8: a fetch error other than not-found is propagated unchanged
by both waits: after a run of fetches that keep the loop polling, the
erroring fetch ends the call at once with exactly that error, consuming
no further fetch and retrying nothing. -/
theorem C8_error_propagation (interval : Nat) (res : Resource) (e : String)
    (pre rest : List FetchResult) :
    (∀ (target : String) (failures : List String) (s0 : String),
      res.status = some s0 → statusEq s0 target = false →
      (∀ f ∈ pre, nonTerminalB target failures f = true) →
      wait_for_status target failures interval none res
          (pre ++ FetchResult.err e :: rest)
        = (some (WaitOutcome.propagatedErr e), pre.length + 1))
    ∧ ((∀ f ∈ pre, f.isFound = true) →
      wait_for_delete interval none res (pre ++ FetchResult.err e :: rest)
        = (some (WaitOutcome.propagatedErr e), pre.length + 1)) := by
  constructor
  · intro target failures s0 h0 hfast hpre
    rw [wait_for_status_enters_loop target failures interval none res
      (pre ++ FetchResult.err e :: rest) s0 h0 hfast]
    rw [wfs_loop_none_append target failures interval pre hpre
      (FetchResult.err e :: rest) 0 res]
    simp [wait_for_status_loop, timedOut]
    omega
  · intro hpre
    unfold wait_for_delete
    rw [wfd_loop_none_append interval pre hpre (FetchResult.err e :: rest)
      0 res]
    simp [wait_for_delete_loop, timedOut]
    omega

/-- Witness for C8: a forbidden-style transport error after one creating
fetch surfaces unchanged from both waits after exactly two fetches. -/
theorem C8_error_propagation_witness :
    wait_for_status "available" ["error"] 2 none
        (Resource.mk "vol-1" (some "creating"))
        [FetchResult.found (Resource.mk "vol-1" (some "creating")),
         FetchResult.err "Forbidden"]
      = (some (WaitOutcome.propagatedErr "Forbidden"), 2)
    ∧ wait_for_delete 2 none (Resource.mk "vol-1" (some "creating"))
        [FetchResult.found (Resource.mk "vol-1" (some "creating")),
         FetchResult.err "Forbidden"]
      = (some (WaitOutcome.propagatedErr "Forbidden"), 2) := by
  constructor
  · have h := (C8_error_propagation 2 (Resource.mk "vol-1" (some "creating"))
      "Forbidden" [FetchResult.found (Resource.mk "vol-1" (some "creating"))]
      []).1 "available" ["error"] "creating" rfl (by decide) (by decide)
    simpa using h
  · have h := (C8_error_propagation 2 (Resource.mk "vol-1" (some "creating"))
      "Forbidden" [FetchResult.found (Resource.mk "vol-1" (some "creating"))]
      []).2 (by decide)
    simpa using h

/-- Claim C9: both waits are read-only with respect to the watched
resource: every resource snapshot carried by an outcome is either the
initial handle or a snapshot returned verbatim by one of the fetches of
the script; the poller fabricates and mutates nothing and its only
interaction is the fetches themselves. -/
theorem C9_read_only_observed (target : String) (failures : List String)
    (interval : Nat) (timeout : Option Nat) (res : Resource)
    (script : List FetchResult) (r : Resource) :
    ((wait_for_status target failures interval timeout res script).1
        = some (WaitOutcome.success r) →
          r = res ∨ FetchResult.found r ∈ script)
    ∧ (∀ s, (wait_for_status target failures interval timeout res script).1
        = some (WaitOutcome.failure r s) → FetchResult.found r ∈ script)
    ∧ (∀ s, (wait_for_status target failures interval timeout res script).1
        = some (WaitOutcome.timeoutErr r s) →
          r = res ∨ FetchResult.found r ∈ script)
    ∧ ((wait_for_delete interval timeout res script).1
        = some (WaitOutcome.success r) →
          r = res ∨ FetchResult.found r ∈ script)
    ∧ (∀ s, (wait_for_delete interval timeout res script).1
        = some (WaitOutcome.timeoutErr r s) →
          r = res ∨ FetchResult.found r ∈ script) := by
  obtain ⟨hd1, hd2⟩ := wfd_loop_observed interval timeout script 0 res r
  refine ⟨?_, ?_, ?_, ?_, ?_⟩
  · intro h
    unfold wait_for_status at h
    cases h0 : res.status with
    | none => rw [h0] at h; simp at h
    | some s0 =>
      rw [h0] at h
      by_cases hfast : statusEq s0 target
      · simp only [hfast, if_true, Option.some.injEq,
          WaitOutcome.success.injEq] at h
        exact Or.inl h.symm
      · simp only [hfast, Bool.false_eq_true, if_false] at h
        exact Or.inr ((wfs_loop_observed target failures interval timeout
          script 0 res r).1 h)
  · intro s h
    unfold wait_for_status at h
    cases h0 : res.status with
    | none => rw [h0] at h; simp at h
    | some s0 =>
      rw [h0] at h
      by_cases hfast : statusEq s0 target
      · simp [hfast] at h
      · simp only [hfast, Bool.false_eq_true, if_false] at h
        exact (wfs_loop_observed target failures interval timeout
          script 0 res r).2.1 s h
  · intro s h
    unfold wait_for_status at h
    cases h0 : res.status with
    | none => rw [h0] at h; simp at h
    | some s0 =>
      rw [h0] at h
      by_cases hfast : statusEq s0 target
      · simp [hfast] at h
      · simp only [hfast, Bool.false_eq_true, if_false] at h
        exact (wfs_loop_observed target failures interval timeout
          script 0 res r).2.2 s h
  · intro h
    exact hd1 h
  · intro s h
    exact hd2 s h

/-- Witness for C9: the success snapshot of a concrete status wait is the
initial handle or one of the fetched snapshots. -/
theorem C9_read_only_observed_witness :
    Resource.mk "vol-1" (some "available")
        = Resource.mk "vol-1" (some "creating")
    ∨ FetchResult.found (Resource.mk "vol-1" (some "available"))
        ∈ [FetchResult.found (Resource.mk "vol-1" (some "available"))] :=
  (C9_read_only_observed "available" ["error"] 2 (some 120)
    (Resource.mk "vol-1" (some "creating"))
    [FetchResult.found (Resource.mk "vol-1" (some "available"))]
    (Resource.mk "vol-1" (some "available"))).1 (by decide)

/-- Claim C10: with failures None the block-storage proxy substitutes the
default failure list [error] and the compute proxy substitutes [ERROR];
under the case-insensitive comparison the two defaults give identical
wait outcomes for every target status, resource and fetch script. -/
theorem C10_default_failures_equiv :
    (∀ (res : Resource) (status : String) (interval : Nat)
      (wait : Option Nat) (script : List FetchResult),
      BlockStorageProxy.wait_for_status res status none interval wait script
        = wait_for_status status ["error"] interval wait res script)
    ∧ (∀ (server : Resource) (status : String) (interval : Nat)
      (wait : Option Nat) (script : List FetchResult),
      ComputeProxy.wait_for_server server status none interval wait script
        = wait_for_status status ["ERROR"] interval wait server script)
    ∧ (∀ (status : String) (interval : Nat) (wait : Option Nat)
      (res : Resource) (script : List FetchResult),
      wait_for_status status ["error"] interval wait res script
        = wait_for_status status ["ERROR"] interval wait res script) := by
  refine ⟨fun _ _ _ _ _ => rfl, fun _ _ _ _ _ => rfl, ?_⟩
  intro status interval wait res script
  exact wait_for_status_congr status status ["error"] ["ERROR"] rfl (by decide)
    interval wait res script

end OpenStackSDK
